import Mathlib

/-!
Verification development for the `secureio` session engine
(repository `xaionaro-go/cryptofilter`).

The repository sources available here are `send_info.go` (the `SendInfo`
acknowledgement-token pool) and `session_test.go` (the test suite).  The
`SendInfo` operations below are shallow embeddings of the code in
`send_info.go`; the session engine itself (send scheduler, receive loop,
fragmentation, replay filter, supervisor state machine) is not among the
sources, so those parts are modelled from the specification, each such
definition carrying a doc comment starting with `Modelled from the spec:`.

Conventions: a Go byte is a `Nat` (values kept below 256 by the encoders);
a Go `panic` is the `Except.error` case of a `GoPanic`-valued result;
a closed channel is a `Bool` flag; machine counters use `Nat`/`Int`
(no overflow is relevant at the sizes involved).
-/

/-- Errors of the session engine that the claims mention (spec section 7). -/
inductive SessErr
  | payloadTooBig
  | alreadyClosed
  | startRejected
  | answersModeMismatch
  | canceled
  | tooManyDecryptFails
deriving DecidableEq, Repr

/-- Go panics that `send_info.go` can raise, one constructor per `panic` call
site. -/
inductive GoPanic
  | acquireBusy          -- AcquireSendInfo: `should not happened`
  | putNotBusy           -- Put: `should not happened (isBusy == ...)`
  | releaseNonFinished   -- Release: `Release() was called on a non-finished sendInfo`
  | refCountNegative     -- Release: `should not happened (refCount == ...)`
  | sendNowRefOne        -- SendNowAndWait: `should not happen`
deriving DecidableEq, Repr

/-- State of one `SendInfo` token, embedding the fields of the Go struct in
`send_info.go`.  The channel `c` is represented by whether it is closed
(`cClosed`), the context by whether it is cancelled (`ctxDone`). -/
structure SendInfo where
  Err : Option SessErr
  N : Int
  sendID : Nat
  cClosed : Bool
  ctxDone : Bool
  refCount : Int
  isBusy : Bool
deriving DecidableEq, Repr

/-- Embedding of `(*SendInfo).reset` from `send_info.go`: clears `Err` and `N`. -/
def SendInfo.reset (s : SendInfo) : SendInfo :=
  { s with Err := none, N := 0 }

/-- Embedding of `(*SendInfo).incRefCount`: atomically increments the
reference count and returns the new value together with the new state. -/
def SendInfo.incRefCount (s : SendInfo) : SendInfo × Int :=
  ({ s with refCount := s.refCount + 1 }, s.refCount + 1)

/-- Embedding of `(*sendInfoPool).Put` from `send_info.go`: panics when the
token is not busy, otherwise clears the busy flag and resets `Err`/`N`
before pooling. -/
def sendInfoPoolPut (s : SendInfo) : Except GoPanic SendInfo :=
  if !s.isBusy then .error .putNotBusy
  else .ok (SendInfo.reset { s with isBusy := false })

/-- Embedding of `(*sendInfoPool).AcquireSendInfo` from `send_info.go`:
panics when the pooled token is still busy, otherwise marks it busy,
increments the reference count, installs a freshly allocated (hence open)
channel `c`, a fresh send id, and the given context. -/
def acquireSendInfo (ctxDone : Bool) (newSendID : Nat) (s : SendInfo) :
    Except GoPanic SendInfo :=
  if s.isBusy then .error .acquireBusy
  else .ok { s with
             isBusy := true, refCount := s.refCount + 1,
             cClosed := false, sendID := newSendID, ctxDone := ctxDone }

/-- Embedding of `(*SendInfo).Release` from `send_info.go`.  The `select`
panics when neither the channel `c` is closed nor the context is done;
otherwise the reference count is decremented: a positive remainder returns
the still-live token, a negative remainder panics, zero hands the token to
`Put`.  The `Bool` of the result records whether the token went back to the
pool. -/
def SendInfo.Release (s : SendInfo) : Except GoPanic (SendInfo × Bool) :=
  if !s.cClosed && !s.ctxDone then .error .releaseNonFinished
  else if 0 < s.refCount - 1 then
    .ok ({ s with refCount := s.refCount - 1 }, false)
  else if s.refCount - 1 < 0 then .error .refCountNegative
  else
    match sendInfoPoolPut { s with refCount := s.refCount - 1 } with
    | .error p => .error p
    | .ok s2 => .ok (s2, true)

/-- Embedding of the entry check of `(*SendInfo).SendNowAndWait` from
`send_info.go`: increments the reference count and panics when the new
value is 1 (the token was not alive); otherwise the token is handed to the
send-delay channel and waited on. -/
def SendInfo.SendNowAndWait (s : SendInfo) : Except GoPanic SendInfo :=
  if (s.incRefCount).2 = 1 then .error .sendNowRefOne
  else .ok (s.incRefCount).1

/-- Embedding of the `select` in `(*SendInfo).Wait` from `send_info.go`:
the wait can return in a given token state exactly when the channel `c` is
closed or the context is done. -/
def SendInfo.waitReturns (s : SendInfo) : Bool :=
  s.cClosed || s.ctxDone

/-- Pool invariant: every token that enters the pool comes either from the
`sync.Pool` allocator `New` (zero `Err`/`N`/`refCount`, not busy) or from
`Put` after a final `Release` (which reset `Err`/`N`, cleared the busy flag
and had just decremented the reference count to zero). -/
def pooledInv (s : SendInfo) : Prop :=
  s.Err = none ∧ s.N = 0 ∧ s.isBusy = false ∧ s.refCount = 0

instance (s : SendInfo) : Decidable (pooledInv s) := by
  unfold pooledInv; infer_instance

/-- Token state produced by the `sync.Pool` allocator `New` in
`newSendInfoPool`: zero values for `Err`, `N`, `refCount`, `isBusy`, and a
freshly allocated (open) channel. -/
def newSendInfo (sendID : Nat) : SendInfo :=
  { Err := none, N := 0, sendID := sendID, cClosed := false,
    ctxDone := false, refCount := 0, isBusy := false }


/-- Token state used in concrete witnesses: a live, busy token whose Done
channel has been closed by the flusher. -/
def tokLive : SendInfo :=
  { Err := none, N := 0, sendID := 2, cClosed := true, ctxDone := false,
    refCount := 1, isBusy := true }

/-- Token state reached after a full `Release`: the token sits in the pool,
not busy, reference count zero, while its channel `c` (replaced only at the
next acquisition) is still closed. -/
def doubleReleasedTok : SendInfo :=
  { Err := none, N := 0, sendID := 7, cClosed := true, ctxDone := false,
    refCount := 0, isBusy := false }

/-- C4 counterexample: calling `Release` a second time on a fully released
token panics (`refCount` drops below zero) even though its Done channel is
closed, so "if either condition holds, Release does not panic" fails. -/
theorem release_panics_despite_done_closed :
    doubleReleasedTok.cClosed = true ∧
    doubleReleasedTok.Release = .error .refCountNegative :=
  ⟨rfl, rfl⟩

/-- C4 (amended): on a live token (positive reference count, busy),
`Release` panics iff the Done channel is not closed and the context is not
cancelled; when either condition holds it succeeds, returning the token to
the pool exactly when the reference count drops to zero. -/
theorem release_panic_iff_on_live_token (s : SendInfo)
    (hrc : 1 ≤ s.refCount) (hb : s.isBusy = true) :
    ((∃ p, s.Release = .error p) ↔ s.cClosed = false ∧ s.ctxDone = false) ∧
    (s.cClosed = true ∨ s.ctxDone = true →
      ∃ s1 pooled, s.Release = .ok (s1, pooled) ∧
        (pooled = true ↔ s.refCount = 1)) := by
  have hok : s.cClosed = true ∨ s.ctxDone = true →
      ∃ s1 pooled, s.Release = Except.ok (s1, pooled) ∧
        (pooled = true ↔ s.refCount = 1) := by
    intro hor
    have hsel : (!s.cClosed && !s.ctxDone) = false := by
      rcases hor with h | h <;> simp [h]
    rcases eq_or_lt_of_le hrc with heq | hlt
    · refine ⟨SendInfo.reset { s with
        refCount := s.refCount - 1,
        isBusy := false }, true, ?_, by simp [← heq]⟩
      unfold SendInfo.Release
      rw [hsel]
      rw [if_neg (by simp)]
      rw [if_neg (by omega), if_neg (by omega)]
      simp [sendInfoPoolPut, hb, SendInfo.reset]
    · refine ⟨{ s with refCount := s.refCount - 1 }, false, ?_,
        by simp; omega⟩
      unfold SendInfo.Release
      rw [hsel]
      rw [if_neg (by simp)]
      rw [if_pos (by omega)]
  refine ⟨⟨?_, ?_⟩, hok⟩
  · rintro ⟨p, hp⟩
    cases hc : s.cClosed
    · cases hd : s.ctxDone
      · exact ⟨rfl, rfl⟩
      · obtain ⟨s1, pooled, hr, _⟩ := hok (Or.inr hd)
        rw [hr] at hp
        exact Except.noConfusion hp
    · obtain ⟨s1, pooled, hr, _⟩ := hok (Or.inl hc)
      rw [hr] at hp
      exact Except.noConfusion hp
  · rintro ⟨hc, hd⟩
    refine ⟨.releaseNonFinished, ?_⟩
    simp [SendInfo.Release, hc, hd]

/-- C4 witness for the amended theorem, at the concrete live token
`tokLive`. -/
theorem release_panic_iff_on_live_token_witness :
    ∃ s1 pooled, tokLive.Release = .ok (s1, pooled) ∧
      (pooled = true ↔ tokLive.refCount = 1) :=
  (release_panic_iff_on_live_token tokLive (by decide) (by decide)).2
    (Or.inl (by decide))

/-- C9: `SendNowAndWait` panics exactly when the reference count is zero at
the call (the incremented count reads 1); on a live token it does not panic,
and the `Wait` select can return only in a state whose Done channel is
closed or whose context is cancelled. -/
theorem sendNowAndWait_refcount (s : SendInfo) :
    (s.refCount = 0 → s.SendNowAndWait = .error .sendNowRefOne) ∧
    (1 ≤ s.refCount →
      (∃ s1, s.SendNowAndWait = .ok s1 ∧ s1.refCount = s.refCount + 1) ∧
      ∀ t : SendInfo, t.waitReturns = true →
        t.cClosed = true ∨ t.ctxDone = true) := by
  constructor
  · intro h0
    simp [SendInfo.SendNowAndWait, SendInfo.incRefCount, h0]
  · intro h1
    constructor
    · refine ⟨{ s with refCount := s.refCount + 1 }, ?_, rfl⟩
      simp only [SendInfo.SendNowAndWait, SendInfo.incRefCount]
      rw [if_neg (by omega)]
    · intro t ht
      simpa [SendInfo.waitReturns] using ht

/-- C9 witness: a never-acquired token panics, the live token succeeds. -/
theorem sendNowAndWait_refcount_witness :
    (newSendInfo 1).SendNowAndWait = .error .sendNowRefOne ∧
    ∃ s1, tokLive.SendNowAndWait = .ok s1 ∧
      s1.refCount = tokLive.refCount + 1 :=
  ⟨(sendNowAndWait_refcount (newSendInfo 1)).1 (by decide),
   ((sendNowAndWait_refcount tokLive).2 (by decide)).1⟩

/-- C10: a token handed out by `AcquireSendInfo` from a pooled state is
fresh (`Err = none`, `N = 0`, busy, open newly allocated Done channel,
positive reference count); `Put` panics on a non-busy token and resets
`Err`/`N` of a busy one before pooling. -/
theorem acquire_fresh_put_resets (s t : SendInfo) (ctxD : Bool) (nid : Nat)
    (hs : pooledInv s) :
    (∃ s1, acquireSendInfo ctxD nid s = .ok s1 ∧
      s1.Err = none ∧ s1.N = 0 ∧ s1.isBusy = true ∧ s1.cClosed = false ∧
      0 < s1.refCount) ∧
    (t.isBusy = false → sendInfoPoolPut t = .error .putNotBusy) ∧
    (t.isBusy = true → ∃ t1, sendInfoPoolPut t = .ok t1 ∧
      t1.Err = none ∧ t1.N = 0 ∧ t1.isBusy = false) := by
  obtain ⟨hE, hN, hB, hR⟩ := hs
  refine ⟨?_, ?_, ?_⟩
  · refine ⟨{ s with
      isBusy := true, refCount := s.refCount + 1,
      cClosed := false, sendID := nid, ctxDone := ctxD }, ?_, hE, hN,
      rfl, rfl, ?_⟩
    · simp [acquireSendInfo, hB]
    · simp [hR]
  · intro hbf
    simp [sendInfoPoolPut, hbf]
  · intro hbt
    refine ⟨SendInfo.reset { t with isBusy := false }, ?_, rfl, rfl, rfl⟩
    simp [sendInfoPoolPut, hbt]

/-- C10 witness: a freshly allocated pooled token is acquired fresh; `Put`
panics on it while it is idle and resets the live busy token. -/
theorem acquire_fresh_put_resets_witness :
    (∃ s1, acquireSendInfo false 5 (newSendInfo 0) = .ok s1 ∧
      s1.Err = none ∧ s1.N = 0 ∧ s1.isBusy = true ∧ s1.cClosed = false ∧
      0 < s1.refCount) ∧
    sendInfoPoolPut (newSendInfo 0) = .error .putNotBusy ∧
    ∃ t1, sendInfoPoolPut tokLive = .ok t1 ∧
      t1.Err = none ∧ t1.N = 0 ∧ t1.isBusy = false :=
  ⟨(acquire_fresh_put_resets (newSendInfo 0) tokLive false 5 (by decide)).1,
   (acquire_fresh_put_resets (newSendInfo 0) (newSendInfo 0) false 5
      (by decide)).2.1 rfl,
   (acquire_fresh_put_resets (newSendInfo 0) tokLive false 5
      (by decide)).2.2 rfl⟩

/-- Modelled from the spec: the frame codec is not among the sources, so the
little-endian fixed-width 2-byte integer encoding of spec section 4.1 is
defined from its words ("Encoding is little-endian for multi-byte integers,
fixed-width, length-prefixed"). -/
def toLE2 (n : Nat) : List Nat :=
  [n % 256, n / 256 % 256]

/-- Modelled from the spec: decoding of a little-endian 2-byte integer. -/
def fromLE2 (b0 b1 : Nat) : Nat :=
  b0 + 256 * b1

/-- Modelled from the spec: little-endian 4-byte integer encoding for the
fragment `message_id` field (spec section 6). -/
def toLE4 (n : Nat) : List Nat :=
  [n % 256, n / 256 % 256, n / 65536 % 256, n / 16777216 % 256]

/-- Modelled from the spec: decoding of a little-endian 4-byte integer. -/
def fromLE4 (b0 b1 b2 b3 : Nat) : Nat :=
  b0 + 256 * b1 + 65536 * b2 + 16777216 * b3

theorem fromLE2_toLE2 (n : Nat) (h : n < 65536) :
    fromLE2 (n % 256) (n / 256 % 256) = n := by
  unfold fromLE2
  omega

theorem fromLE4_toLE4 (n : Nat) (h : n < 4294967296) :
    fromLE4 (n % 256) (n / 256 % 256) (n / 65536 % 256)
      (n / 16777216 % 256) = n := by
  unfold fromLE4
  omega

/-- Modelled from the spec: one message as carried on the wire, before
container encoding: a 16-bit message type and a body (spec section 4.1). -/
structure WireMsg where
  ty : Nat
  body : List Nat
deriving DecidableEq, Repr

/-- Modelled from the spec: wire code of the application `ReadWrite` message
type.  The spec fixes the partition of types, not the numerals; the model
uses fixed distinct constants. -/
def messageTypeReadWrite : Nat := 7

/-- Modelled from the spec: wire code of the system `Fragment` message
type; a distinct constant (see `messageTypeReadWrite`). -/
def messageTypeFragment : Nat := 5

/-- Modelled from the spec: container encoding
`type:2 | length:2 | body[length]` of spec section 4.1. -/
def encodeMessage (m : WireMsg) : List Nat :=
  toLE2 m.ty ++ toLE2 m.body.length ++ m.body

/-- Modelled from the spec: container decoding; rejects a length field
exceeding the remaining buffer (spec section 4.1). -/
def decodeMessage (buf : List Nat) : Option (WireMsg × List Nat) :=
  match buf with
  | t0 :: t1 :: l0 :: l1 :: rest =>
    if rest.length < fromLE2 l0 l1 then none
    else some (⟨fromLE2 t0 t1, rest.take (fromLE2 l0 l1)⟩,
      rest.drop (fromLE2 l0 l1))
  | _ => none

/-- Modelled from the spec: the packet plaintext is a sequence of message
containers, parsed in order (spec sections 4.1 and 4.5); the fuel argument
bounds the recursion by the buffer length. -/
def decodeMessagesAux : Nat → List Nat → Option (List WireMsg)
  | _, [] => some []
  | 0, _ :: _ => none
  | fuel + 1, buf =>
    match decodeMessage buf with
    | none => none
    | some (m, rest) =>
      match decodeMessagesAux fuel rest with
      | none => none
      | some more => some (m :: more)

/-- Modelled from the spec: parse all message containers of a packet
plaintext. -/
def decodeMessages (buf : List Nat) : Option (List WireMsg) :=
  decodeMessagesAux buf.length buf

theorem decodeMessage_encode (m : WireMsg) (rest : List Nat)
    (hty : m.ty < 65536) (hlen : m.body.length < 65536) :
    decodeMessage (encodeMessage m ++ rest) = some (m, rest) := by
  have h1 := fromLE2_toLE2 m.ty hty
  have h2 := fromLE2_toLE2 m.body.length hlen
  simp only [encodeMessage, toLE2, List.cons_append, List.nil_append,
    List.append_assoc, decodeMessage, h1, h2]
  rw [if_neg (by simp)]
  rw [List.take_left, List.drop_left]

theorem decodeMessagesAux_nil (fuel : Nat) :
    decodeMessagesAux fuel [] = some [] := by
  cases fuel <;> rfl

theorem decodeMessagesAux_cons (fuel : Nat) (a : Nat) (l : List Nat) :
    decodeMessagesAux (fuel + 1) (a :: l) =
      match decodeMessage (a :: l) with
      | none => none
      | some (m, rest) =>
        match decodeMessagesAux fuel rest with
        | none => none
        | some more => some (m :: more) := rfl

theorem decodeMessages_encode_single (m : WireMsg)
    (hty : m.ty < 65536) (hlen : m.body.length < 65536) :
    decodeMessages (encodeMessage m) = some [m] := by
  have hd : decodeMessage (encodeMessage m) = some (m, []) := by
    simpa using decodeMessage_encode m [] hty hlen
  have hL : encodeMessage m = m.ty % 256 :: m.ty / 256 % 256 ::
      m.body.length % 256 :: m.body.length / 256 % 256 :: m.body := by
    simp [encodeMessage, toLE2]
  unfold decodeMessages
  rw [hL] at hd ⊢
  simp only [List.length_cons]
  rw [decodeMessagesAux_cons, hd]
  simp [decodeMessagesAux_nil]

/-- Modelled from the spec: fragment header size, 4 bytes of message id,
2 bytes of index, 2 bytes of total (spec sections 4.6 and 6). -/
def fragHeaderSize : Nat := 8

/-- Modelled from the spec: fragment body
`message_id:4 | index:2 | total:2 | data` (spec section 6). -/
def encodeFragBody (mid idx total : Nat) (data : List Nat) : List Nat :=
  toLE4 mid ++ toLE2 idx ++ toLE2 total ++ data

/-- Modelled from the spec: fragment body decoding. -/
def decodeFragBody (b : List Nat) : Option (Nat × Nat × Nat × List Nat) :=
  match b with
  | m0 :: m1 :: m2 :: m3 :: i0 :: i1 :: t0 :: t1 :: data =>
    some (fromLE4 m0 m1 m2 m3, fromLE2 i0 i1, fromLE2 t0 t1, data)
  | _ => none

theorem decodeFragBody_encode (mid idx total : Nat) (data : List Nat)
    (hmid : mid < 4294967296) (hidx : idx < 65536) (htot : total < 65536) :
    decodeFragBody (encodeFragBody mid idx total data) =
      some (mid, idx, total, data) := by
  simp only [encodeFragBody, toLE4, toLE2, List.cons_append, List.nil_append,
    decodeFragBody]
  rw [fromLE4_toLE4 mid hmid, fromLE2_toLE2 idx hidx, fromLE2_toLE2 total htot]

theorem length_encodeFragBody (mid idx total : Nat) (data : List Nat) :
    (encodeFragBody mid idx total data).length = 8 + data.length := by
  simp [encodeFragBody, toLE4, toLE2]
  omega

/-- Modelled from the spec: splitting a payload into consecutive chunks of
at most `fs` bytes (spec section 4.6); the fuel argument bounds the
recursion by the payload length. -/
def chunkBytesAux : Nat → Nat → List Nat → List (List Nat)
  | _, _, [] => []
  | 0, _, _ :: _ => []
  | fuel + 1, fs, a :: l => (a :: l).take fs :: chunkBytesAux fuel fs ((a :: l).drop fs)

/-- Modelled from the spec: split a payload into chunks of at most `fs`
bytes. -/
def chunkBytes (fs : Nat) (l : List Nat) : List (List Nat) :=
  chunkBytesAux l.length fs l

theorem chunkBytesAux_nil (fuel fs : Nat) : chunkBytesAux fuel fs [] = [] := by
  cases fuel <;> rfl

theorem chunkBytesAux_join (fs : Nat) (hfs : 1 ≤ fs) :
    ∀ (fuel : Nat) (l : List Nat), l.length ≤ fuel →
      (chunkBytesAux fuel fs l).join = l := by
  intro fuel
  induction fuel with
  | zero =>
    intro l hl
    have : l = [] := List.length_eq_zero.mp (Nat.le_zero.mp hl)
    subst this
    rfl
  | succ n ih =>
    intro l hl
    match l with
    | [] => rfl
    | a :: t =>
      have hdrop : ((a :: t).drop fs).length ≤ n := by
        simp only [List.length_drop, List.length_cons]
        simp only [List.length_cons] at hl
        omega
      calc (chunkBytesAux (n + 1) fs (a :: t)).join
          = (a :: t).take fs ++ (chunkBytesAux n fs ((a :: t).drop fs)).join := by
            rfl
        _ = (a :: t).take fs ++ (a :: t).drop fs := by rw [ih _ hdrop]
        _ = a :: t := List.take_append_drop fs (a :: t)

theorem chunkBytes_join (fs : Nat) (l : List Nat) (hfs : 1 ≤ fs) :
    (chunkBytes fs l).join = l :=
  chunkBytesAux_join fs hfs l.length l le_rfl

theorem chunkBytesAux_mem_length (fs : Nat) :
    ∀ (fuel : Nat) (l : List Nat) (c : List Nat),
      c ∈ chunkBytesAux fuel fs l → c.length ≤ fs := by
  intro fuel
  induction fuel with
  | zero =>
    intro l c hc
    cases l with
    | nil => simp [chunkBytesAux] at hc
    | cons a t => simp [chunkBytesAux] at hc
  | succ n ih =>
    intro l c hc
    cases l with
    | nil => simp [chunkBytesAux] at hc
    | cons a t =>
      simp only [chunkBytesAux, List.mem_cons] at hc
      rcases hc with hc | hc
      · subst hc
        simpa using List.length_take_le fs (a :: t)
      · exact ih _ _ hc

theorem chunkBytesAux_length_le (fs : Nat) :
    ∀ (fuel : Nat) (l : List Nat), (chunkBytesAux fuel fs l).length ≤ fuel := by
  intro fuel
  induction fuel with
  | zero =>
    intro l
    cases l <;> simp [chunkBytesAux]
  | succ n ih =>
    intro l
    cases l with
    | nil => simp [chunkBytesAux]
    | cons a t =>
      simp only [chunkBytesAux, List.length_cons]
      exact Nat.succ_le_succ (ih _)

theorem chunkBytes_length_le (fs : Nat) (l : List Nat) :
    (chunkBytes fs l).length ≤ l.length :=
  chunkBytesAux_length_le fs l.length l

/-- Modelled from the spec: session options relevant to the send size
policy: `PayloadSizeLimit` and `EnableFragmentation` (spec section 3). -/
structure SessConfig where
  payloadSizeLimit : Nat
  enableFragmentation : Bool
deriving DecidableEq, Repr

/-- Modelled from the spec: the consecutive `Fragment` messages produced
for the chunks of one oversized payload, indices counting up from `idx`,
every fragment carrying the message id and the total count
(spec sections 4.4 and 4.6). -/
def fragmentMsgsAux (mid total : Nat) : Nat → List (List Nat) → List WireMsg
  | _, [] => []
  | idx, c :: cs =>
    ⟨messageTypeFragment, encodeFragBody mid idx total c⟩ ::
      fragmentMsgsAux mid total (idx + 1) cs

/-- Modelled from the spec: all `Fragment` messages of one oversized
payload. -/
def fragmentMsgs (mid : Nat) (cs : List (List Nat)) : List WireMsg :=
  fragmentMsgsAux mid cs.length 0 cs

/-- Modelled from the spec: the size policy of the send scheduler (spec
section 4.4): a payload within `PayloadSizeLimit` goes out as a single
`ReadWrite` message; an oversized payload fails with `ErrPayloadTooBig`
unless `EnableFragmentation` is set, in which case it is split into
consecutive fragments of at most `PayloadSizeLimit - fragHeaderSize` data
bytes. -/
def sessionWrite (cfg : SessConfig) (mid : Nat) (p : List Nat) :
    Except SessErr (List WireMsg) :=
  if cfg.payloadSizeLimit < p.length then
    if cfg.enableFragmentation then
      .ok (fragmentMsgs mid (chunkBytes (cfg.payloadSizeLimit - fragHeaderSize) p))
    else .error .payloadTooBig
  else .ok [⟨messageTypeReadWrite, p⟩]

/-- Modelled from the spec: one partial reassembly, the expected total and
the received `(index, data)` pairs (spec section 4.6). -/
structure FragEntry where
  total : Nat
  got : List (Nat × List Nat)
deriving DecidableEq, Repr

/-- Modelled from the spec: a reassembly is complete when all `total`
fragment indices are present. -/
def fragComplete (e : FragEntry) : Bool :=
  (List.range e.total).all fun i => (e.got.lookup i).isSome

/-- Modelled from the spec: the concatenation of the received fragments in
index order. -/
def fragAssemble (e : FragEntry) : List Nat :=
  ((List.range e.total).map fun i => (e.got.lookup i).getD []).join

/-- Modelled from the spec: the application-visible part of the receive
loop: the payloads delivered (in order) to the synchronous `Read` buffer,
and the fragment reassembly table keyed by message id (spec sections 4.5
and 4.6; the single peer of a session keeps the key to the message id). -/
structure RecvState where
  delivered : List (List Nat)
  fragTable : List (Nat × FragEntry)
deriving DecidableEq, Repr

/-- Modelled from the spec: the reassembly entry after inserting one more
`(index, data)` pair (spec section 4.6). -/
def fragInsertEntry (e : FragEntry) (idx : Nat) (data : List Nat) :
    FragEntry :=
  ⟨e.total, (idx, data) :: e.got⟩

/-- Modelled from the spec: insertion of one arriving fragment into its
reassembly entry (created on first arrival with the total announced by the
fragment); on completion the concatenation is delivered and the entry
evicted (spec section 4.6). -/
def insertFragment (st : RecvState) (mid idx total : Nat)
    (data : List Nat) : RecvState :=
  if fragComplete (fragInsertEntry
      ((st.fragTable.lookup mid).getD ⟨total, []⟩) idx data) then
    { delivered := st.delivered ++ [fragAssemble (fragInsertEntry
        ((st.fragTable.lookup mid).getD ⟨total, []⟩) idx data)],
      fragTable := st.fragTable.eraseP (fun q => q.1 == mid) }
  else
    { delivered := st.delivered,
      fragTable := (mid, fragInsertEntry
          ((st.fragTable.lookup mid).getD ⟨total, []⟩) idx data) ::
        st.fragTable.eraseP (fun q => q.1 == mid) }

/-- Modelled from the spec: dispatch of one parsed message (spec section
4.5 step 4): a `ReadWrite` body is enqueued for `Read`; a `Fragment` is
inserted into its reassembly entry; other types go to their subsystems,
which the model does not track. -/
def recvMsg (st : RecvState) (m : WireMsg) : RecvState :=
  if m.ty = messageTypeReadWrite then
    { st with delivered := st.delivered ++ [m.body] }
  else if m.ty = messageTypeFragment then
    match decodeFragBody m.body with
    | none => st
    | some (mid, idx, total, data) => insertFragment st mid idx total data
  else st

/-- Modelled from the spec: one packet after AEAD decryption: the header
fields bound as additional data (packet id and key generation) and the
authenticated plaintext (spec sections 4.1 and 6; the AEAD itself is an
external collaborator, so the model works on the authenticated
plaintext). -/
structure Packet where
  packetID : Nat
  keyGen : Nat
  plaintext : List Nat
deriving DecidableEq, Repr

/-- Modelled from the spec: the replay filter accepts only a packet id
strictly greater than every previously accepted one under the same key
generation (spec section 3 invariants and section 4.5 step 3). -/
def replayCheck (last : Option Nat) (pid : Nat) : Bool :=
  match last with
  | none => true
  | some l => l < pid

/-- Modelled from the spec: receiver-side state: the highest accepted
packet id per key generation (the replay filter), the
`UnexpectedPacketIDCount` counter, and the dispatch state. -/
structure ReceiverState where
  lastPacketID : Nat → Option Nat
  unexpectedPacketIDCount : Nat
  recv : RecvState

/-- Modelled from the spec: processing of one packet by the receive loop
(spec section 4.5): the replay filter is consulted for the
`(key_gen, packet_id)` pair; a stale id increments
`UnexpectedPacketIDCount` and drops the packet; otherwise the id is
recorded and the contained messages are parsed and dispatched in order. -/
def receivePacket (rs : ReceiverState) (pkt : Packet) : ReceiverState :=
  if replayCheck (rs.lastPacketID pkt.keyGen) pkt.packetID then
    { lastPacketID := fun kg =>
        if kg = pkt.keyGen then some pkt.packetID else rs.lastPacketID kg,
      unexpectedPacketIDCount := rs.unexpectedPacketIDCount,
      recv := match decodeMessages pkt.plaintext with
        | none => rs.recv
        | some msgs => msgs.foldl recvMsg rs.recv }
  else
    { rs with unexpectedPacketIDCount := rs.unexpectedPacketIDCount + 1 }

/-- Modelled from the spec: the send scheduler flushes each of these
messages in its own packet, with consecutive packet ids under one key
generation (spec section 4.4; merging several messages into one packet is
an optimization the round-trip claims do not depend on). -/
def packetize (kg : Nat) : Nat → List WireMsg → List Packet
  | _, [] => []
  | pid, m :: ms => ⟨pid, kg, encodeMessage m⟩ :: packetize kg (pid + 1) ms

/-- Dispatch state of a freshly established session: nothing delivered, no
partial reassembly. -/
def initialRecvState : RecvState := ⟨[], []⟩

/-- Receiver state of a freshly established session: no packet accepted
yet under any key generation, counter zero. -/
def initialReceiver : ReceiverState := ⟨fun _ => none, 0, initialRecvState⟩

theorem receivePacket_accept (rs : ReceiverState) (pid kg : Nat) (m : WireMsg)
    (hacc : replayCheck (rs.lastPacketID kg) pid = true)
    (hty : m.ty < 65536) (hlen : m.body.length < 65536) :
    receivePacket rs ⟨pid, kg, encodeMessage m⟩ =
      { lastPacketID := fun kg2 =>
          if kg2 = kg then some pid else rs.lastPacketID kg2,
        unexpectedPacketIDCount := rs.unexpectedPacketIDCount,
        recv := recvMsg rs.recv m } := by
  unfold receivePacket
  rw [if_pos hacc, decodeMessages_encode_single m hty hlen]
  rfl

/-- C1: round trip: a payload within `PayloadSizeLimit` written on one side
is delivered, bit for bit, as the sole payload read on the other side, with
no error on either call. -/
theorem write_read_roundtrip (cfg : SessConfig) (mid pid kg : Nat)
    (p : List Nat) (hp : p.length ≤ cfg.payloadSizeLimit)
    (hlim : cfg.payloadSizeLimit < 65536) :
    ∃ msgs, sessionWrite cfg mid p = .ok msgs ∧
      ((packetize kg pid msgs).foldl receivePacket
        initialReceiver).recv.delivered = [p] := by
  refine ⟨[⟨messageTypeReadWrite, p⟩], ?_, ?_⟩
  · unfold sessionWrite
    rw [if_neg (by omega)]
  · show (receivePacket initialReceiver
      ⟨pid, kg, encodeMessage ⟨messageTypeReadWrite, p⟩⟩).recv.delivered = [p]
    rw [receivePacket_accept initialReceiver pid kg ⟨messageTypeReadWrite, p⟩
      rfl (by norm_num [messageTypeReadWrite])
      (by show p.length < 65536; omega)]
    simp [recvMsg, initialReceiver, initialRecvState]

/-- C1 witness: the two-byte payload `[9, 10]` round-trips under limit 16. -/
theorem write_read_roundtrip_witness :
    ∃ msgs, sessionWrite ⟨16, false⟩ 0 [9, 10] = .ok msgs ∧
      ((packetize 0 1 msgs).foldl receivePacket
        initialReceiver).recv.delivered = [[9, 10]] :=
  write_read_roundtrip ⟨16, false⟩ 0 1 0 [9, 10] (by norm_num) (by norm_num)

/-- C5: a packet accepted once is dropped on redelivery: the duplicate
increments `UnexpectedPacketIDCount` by one and changes nothing in the
dispatch state, so its message is never delivered a second time. -/
theorem duplicate_packet_dropped (rs : ReceiverState) (pkt : Packet)
    (hacc : replayCheck (rs.lastPacketID pkt.keyGen) pkt.packetID = true) :
    (receivePacket (receivePacket rs pkt) pkt).unexpectedPacketIDCount
        = (receivePacket rs pkt).unexpectedPacketIDCount + 1 ∧
    (receivePacket (receivePacket rs pkt) pkt).recv
        = (receivePacket rs pkt).recv := by
  have h1 : (receivePacket rs pkt).lastPacketID pkt.keyGen
      = some pkt.packetID := by
    unfold receivePacket
    rw [if_pos hacc]
    simp
  have h2 : replayCheck ((receivePacket rs pkt).lastPacketID pkt.keyGen)
      pkt.packetID = false := by
    rw [h1]
    simp [replayCheck]
  have h3 : receivePacket (receivePacket rs pkt) pkt
      = { lastPacketID := (receivePacket rs pkt).lastPacketID,
          unexpectedPacketIDCount :=
            (receivePacket rs pkt).unexpectedPacketIDCount + 1,
          recv := (receivePacket rs pkt).recv } := by
    conv_lhs => rw [receivePacket]
    rw [h2]
    simp
  exact ⟨by rw [h3], by rw [h3]⟩

/-- Concrete packet used in the C5 witness: packet id 1, key generation 0,
one `ReadWrite` message with body `[9]`. -/
def pktW : Packet := ⟨1, 0, encodeMessage ⟨messageTypeReadWrite, [9]⟩⟩

/-- C5 witness: from a fresh receiver, one duplicate of the first accepted
packet raises `UnexpectedPacketIDCount` from 0 to 1 and delivers nothing
new. -/
theorem duplicate_packet_dropped_witness :
    (receivePacket (receivePacket initialReceiver pktW)
        pktW).unexpectedPacketIDCount
      = (receivePacket initialReceiver pktW).unexpectedPacketIDCount + 1 ∧
    (receivePacket (receivePacket initialReceiver pktW) pktW).recv
      = (receivePacket initialReceiver pktW).recv :=
  duplicate_packet_dropped initialReceiver pktW rfl

/-- Modelled from the spec: per-session send counters: the next fragment
message id and the number of packets handed to the transport. -/
structure SendState where
  nextMsgID : Nat
  sentPackets : Nat
deriving DecidableEq, Repr

/-- Modelled from the spec: stateful `Write` of the send scheduler: a
rejected payload leaves the session state untouched (the session stays
usable); an accepted one consumes a message id and emits its messages
(spec sections 4.4 and 7). -/
def sessionWriteS (cfg : SessConfig) (st : SendState) (p : List Nat) :
    SendState × Except SessErr (List WireMsg) :=
  match sessionWrite cfg st.nextMsgID p with
  | .error e => (st, .error e)
  | .ok msgs =>
    ({ nextMsgID := st.nextMsgID + 1,
       sentPackets := st.sentPackets + msgs.length }, .ok msgs)

/-- C6: with fragmentation disabled, an oversized `Write` fails with
`ErrPayloadTooBig`, the session state is unchanged, and a subsequent
conforming write on the same session succeeds. -/
theorem oversize_write_rejected_session_usable (cfg : SessConfig)
    (st : SendState) (b q : List Nat)
    (hb : cfg.payloadSizeLimit < b.length)
    (hfrag : cfg.enableFragmentation = false)
    (hq : q.length ≤ cfg.payloadSizeLimit) :
    sessionWriteS cfg st b = (st, .error .payloadTooBig) ∧
    sessionWriteS cfg st q
      = ({ nextMsgID := st.nextMsgID + 1, sentPackets := st.sentPackets + 1 },
         .ok [⟨messageTypeReadWrite, q⟩]) := by
  have h1 : sessionWrite cfg st.nextMsgID b = .error .payloadTooBig := by
    unfold sessionWrite
    rw [if_pos hb, if_neg (by simp [hfrag])]
  have h2 : sessionWrite cfg st.nextMsgID q
      = .ok [⟨messageTypeReadWrite, q⟩] := by
    unfold sessionWrite
    rw [if_neg (by omega)]
  constructor
  · simp [sessionWriteS, h1]
  · simp [sessionWriteS, h2]

/-- C6 witness: limit 4, oversized payload of 8 bytes, conforming payload
of 2 bytes. -/
theorem oversize_write_rejected_session_usable_witness :
    sessionWriteS ⟨4, false⟩ ⟨0, 0⟩ [1, 2, 3, 4, 5, 6, 7, 8]
      = (⟨0, 0⟩, .error .payloadTooBig) ∧
    sessionWriteS ⟨4, false⟩ ⟨0, 0⟩ [1, 2]
      = (⟨1, 1⟩, .ok [⟨messageTypeReadWrite, [1, 2]⟩]) :=
  oversize_write_rejected_session_usable ⟨4, false⟩ ⟨0, 0⟩
    [1, 2, 3, 4, 5, 6, 7, 8] [1, 2] (by norm_num) rfl (by norm_num)

/-- Modelled from the spec: the supervisor states (spec section 3,
`New → Negotiating → KeyExchanging → Established → Closing → Closed`). -/
inductive SessionState
  | new
  | negotiating
  | keyExchanging
  | established
  | closing
  | closed
deriving DecidableEq, Repr

/-- Modelled from the spec: the internal events of the supervisor state
machine table (spec section 4.7). -/
inductive SessEvent
  | negotiationComplete
  | negotiationMismatch
  | firstKeyInstalled
  | keyExchangeFail
  | rekey
  | closeRequested
  | peerCloseNotify
  | fatalError
  | tasksDrained
deriving DecidableEq, Repr

/-- Modelled from the spec: the transition table of the supervisor (spec
section 4.7); an event not listed for a state leaves the state unchanged;
no transition leads back to New. -/
def sessStep : SessionState → SessEvent → SessionState
  | .negotiating, .negotiationComplete => .keyExchanging
  | .negotiating, .negotiationMismatch => .closing
  | .keyExchanging, .firstKeyInstalled => .established
  | .keyExchanging, .keyExchangeFail => .closing
  | .established, .rekey => .established
  | .established, .closeRequested => .closing
  | .established, .peerCloseNotify => .closing
  | .established, .fatalError => .closing
  | .closing, .tasksDrained => .closed
  | s, _ => s

/-- Modelled from the spec: `Start` succeeds only from New, moving to
Negotiating when the negotiator is enabled and to KeyExchanging otherwise;
from any other state it is rejected (spec section 4.7). -/
def sessStart (negotiatorEnabled : Bool) :
    SessionState → Except SessErr SessionState
  | .new => .ok (if negotiatorEnabled then .negotiating else .keyExchanging)
  | _ => .error .startRejected

/-- Modelled from the spec: `Close` from Closed returns `ErrAlreadyClosed`
without side effects; from any other state it succeeds, moving the
supervisor to Closing (spec sections 4.7 and 7). -/
def sessClose : SessionState → SessionState × Except SessErr Unit
  | .closed => (.closed, .error .alreadyClosed)
  | _ => (.closing, .ok ())

/-- C7: `Start` succeeds exactly from New; every state reachable after a
start is never New again (so any later `Start` errors); `Close` succeeds
from any non-Closed state, while `Close` on a Closed session returns
`ErrAlreadyClosed` leaving the state Closed, and no event moves a Closed
session. -/
theorem start_close_discipline (ne : Bool) (s : SessionState) (e : SessEvent) :
    ((∃ s1, sessStart ne s = .ok s1) ↔ s = .new) ∧
    (s ≠ .new → sessStep s e ≠ .new ∧ sessStart ne s = .error .startRejected) ∧
    (s ≠ .closed → sessClose s = (.closing, .ok ())) ∧
    sessClose .closed = (.closed, .error .alreadyClosed) ∧
    sessStep .closed e = .closed := by
  refine ⟨?_, ?_, ?_, rfl, by cases e <;> rfl⟩
  · cases s <;> simp [sessStart]
  · intro hs
    cases s <;> cases e <;> simp [sessStep, sessStart] <;> simp at hs
  · intro hs
    cases s <;> first
      | rfl
      | exact absurd rfl hs

/-- C7 witness: at the Established state with a fatal error event. -/
theorem start_close_discipline_witness :
    sessStep .established .fatalError ≠ .new ∧
    sessStart false .established = .error .startRejected ∧
    sessClose .established = (.closing, .ok ()) :=
  ⟨((start_close_discipline false .established .fatalError).2.1
      (by decide)).1,
   ((start_close_discipline false .established .fatalError).2.1
      (by decide)).2,
   (start_close_discipline false .established .fatalError).2.2.1
      (by decide)⟩

/-- Modelled from the spec: the three `AnswersMode` policies of the key
exchanger (spec sections 3 and 4.3). -/
inductive AnswersMode
  | disable
  | answerAndContinue
  | answerAndWait
deriving DecidableEq, Repr

/-- Modelled from the spec: the detectable mismatch between the peers is
one side `Disable` and the other `AnswerAndWait` (spec section 4.3). -/
def answersModeMismatchDetect (a b : AnswersMode) : Bool :=
  (a == .disable && b == .answerAndWait) ||
    (a == .answerAndWait && b == .disable)

/-- Modelled from the spec: the outcome of driving the key exchange
between two peers to quiescence: on a detected answers-mode mismatch both
sessions close and `on_error` is invoked with `ErrAnswersModeMismatch`;
otherwise both establish with no error (spec section 4.3 and section 8
scenario 5). -/
def keyExchangeOutcome (a b : AnswersMode) :
    SessionState × SessionState × Option SessErr :=
  if answersModeMismatchDetect a b then
    (.closed, .closed, some .answersModeMismatch)
  else (.established, .established, none)

/-- C8: with one peer at `Disable` and the other at `AnswerAndWait` (in
either order) both sessions end Closed and the reported error is
`ErrAnswersModeMismatch`; matching modes establish instead. -/
theorem answers_mode_mismatch_closes :
    keyExchangeOutcome .disable .answerAndWait
      = (.closed, .closed, some .answersModeMismatch) ∧
    keyExchangeOutcome .answerAndWait .disable
      = (.closed, .closed, some .answersModeMismatch) ∧
    keyExchangeOutcome .disable .disable
      = (.established, .established, none) ∧
    keyExchangeOutcome .answerAndWait .answerAndWait
      = (.established, .established, none) := by
  decide

/-- Reassembly contents after the first `k` fragments of the chunk list
`cs` have been inserted, most recent first (the insertion order of
`recvMsg`). -/
def gotPre (cs : List (List Nat)) : Nat → List (Nat × List Nat)
  | 0 => []
  | k + 1 => (k, cs.getD k []) :: gotPre cs k

theorem gotPre_lookup_lt (cs : List (List Nat)) :
    ∀ (k i : Nat), i < k →
      (gotPre cs k).lookup i = some (cs.getD i []) := by
  intro k
  induction k with
  | zero => omega
  | succ n ih =>
    intro i hi
    by_cases hieq : i = n
    · subst hieq
      simp [gotPre, List.lookup]
    · have hlt : i < n := by omega
      have hbeq : (i == n) = false := by simp [hieq]
      simpa [gotPre, List.lookup, hbeq] using ih i hlt

theorem gotPre_lookup_ge (cs : List (List Nat)) :
    ∀ (k i : Nat), k ≤ i → (gotPre cs k).lookup i = none := by
  intro k
  induction k with
  | zero => intro i _; rfl
  | succ n ih =>
    intro i hi
    have hbeq : (i == n) = false := by
      simp
      omega
    simpa [gotPre, List.lookup, hbeq] using ih i (by omega)

theorem range_map_getD (l : List (List Nat)) :
    (List.range l.length).map (fun i => l.getD i []) = l := by
  induction l with
  | nil => rfl
  | cons a t ih =>
    rw [List.length_cons, List.range_succ_eq_map, List.map_cons,
      List.map_map]
    have h2 : ((fun i => (a :: t).getD i []) ∘ Nat.succ)
        = fun i => t.getD i [] := by
      funext i
      simp
    rw [h2, ih]
    rfl

theorem fragComplete_gotPre_full (cs : List (List Nat)) :
    fragComplete ⟨cs.length, gotPre cs cs.length⟩ = true := by
  unfold fragComplete
  rw [List.all_eq_true]
  intro i hi
  rw [List.mem_range] at hi
  rw [gotPre_lookup_lt cs cs.length i hi]
  rfl

theorem fragComplete_gotPre_partial (cs : List (List Nat)) (n k : Nat)
    (hk : k < n) : fragComplete ⟨n, gotPre cs k⟩ = false := by
  show (List.range n).all (fun i => ((gotPre cs k).lookup i).isSome) = false
  rw [Bool.eq_false_iff]
  intro h
  rw [List.all_eq_true] at h
  have h2 := h (n - 1) (by rw [List.mem_range]; omega)
  rw [gotPre_lookup_ge cs k (n - 1) (by omega)] at h2
  simp at h2

theorem fragAssemble_gotPre (cs : List (List Nat)) :
    fragAssemble ⟨cs.length, gotPre cs cs.length⟩ = cs.join := by
  unfold fragAssemble
  have h : (List.range cs.length).map
        (fun i => (((gotPre cs cs.length).lookup i).getD []))
      = (List.range cs.length).map (fun i => cs.getD i []) := by
    apply List.map_eq_map_iff.mpr
    intro i hi
    rw [List.mem_range] at hi
    rw [gotPre_lookup_lt cs cs.length i hi]
    rfl
  rw [h, range_map_getD]

theorem chunkBytes_pos (fs : Nat) (p : List Nat) (hp : p ≠ []) :
    1 ≤ (chunkBytes fs p).length := by
  match p with
  | [] => exact absurd rfl hp
  | a :: t =>
    unfold chunkBytes
    rw [List.length_cons]
    simp [chunkBytesAux]

theorem drop_chunk_cons (cs : List (List Nat)) (k : Nat)
    (h : k < cs.length) :
    cs.drop k = cs.getD k [] :: cs.drop (k + 1) := by
  rw [List.drop_eq_get_cons h, List.getD_eq_get cs [] h]

theorem recvMsg_fragment (st : RecvState) (mid idx total : Nat)
    (data : List Nat) (hmid : mid < 4294967296) (hidx : idx < 65536)
    (htot : total < 65536) :
    recvMsg st ⟨messageTypeFragment, encodeFragBody mid idx total data⟩
      = insertFragment st mid idx total data := by
  simp only [recvMsg, if_true]
  rw [decodeFragBody_encode mid idx total data hmid hidx htot]
  rw [if_neg (show ¬(messageTypeFragment = messageTypeReadWrite) by decide)]

theorem insertFragment_eq (st : RecvState) (mid idx total : Nat)
    (data : List Nat) (e : FragEntry)
    (htab : (st.fragTable.lookup mid).getD ⟨total, []⟩ = e) :
    insertFragment st mid idx total data =
      if fragComplete ⟨e.total, (idx, data) :: e.got⟩ then
        { delivered := st.delivered ++
            [fragAssemble ⟨e.total, (idx, data) :: e.got⟩],
          fragTable := st.fragTable.eraseP (fun q => q.1 == mid) }
      else
        { delivered := st.delivered,
          fragTable := (mid, ⟨e.total, (idx, data) :: e.got⟩) ::
            st.fragTable.eraseP (fun q => q.1 == mid) } := by
  unfold insertFragment fragInsertEntry
  rw [htab]

theorem frag_fold_aux (cs : List (List Nat)) (mid kg : Nat)
    (hmid : mid < 4294967296) (hn : cs.length < 65536)
    (hbody : ∀ c ∈ cs, c.length < 65528) :
    ∀ (m : Nat), 1 ≤ m → ∀ (k : Nat), k + m = cs.length →
    ∀ (rs : ReceiverState) (pid : Nat),
      (∀ kg2 l, rs.lastPacketID kg2 = some l → l < pid) →
      (rs.recv.fragTable.lookup mid).getD ⟨cs.length, []⟩
          = ⟨cs.length, gotPre cs k⟩ →
      rs.recv.fragTable.eraseP (fun q => q.1 == mid) = [] →
      ((packetize kg pid (fragmentMsgsAux mid cs.length k (cs.drop k))).foldl
          receivePacket rs).recv.delivered
        = rs.recv.delivered ++ [fragAssemble ⟨cs.length, gotPre cs cs.length⟩]
      ∧ ((packetize kg pid (fragmentMsgsAux mid cs.length k (cs.drop k))).foldl
          receivePacket rs).unexpectedPacketIDCount
        = rs.unexpectedPacketIDCount := by
  intro m
  induction m with
  | zero => omega
  | succ m1 ih =>
    intro _ k hk rs pid hlast htab htab2
    have hklt : k < cs.length := by omega
    rw [drop_chunk_cons cs k hklt]
    have hstep1 : fragmentMsgsAux mid cs.length k
        (cs.getD k [] :: cs.drop (k + 1))
        = ⟨messageTypeFragment, encodeFragBody mid k cs.length (cs.getD k [])⟩
          :: fragmentMsgsAux mid cs.length (k + 1) (cs.drop (k + 1)) := rfl
    rw [hstep1]
    have hstep2 : ∀ (w : WireMsg) (ms : List WireMsg) (pid2 : Nat),
        packetize kg pid2 (w :: ms)
          = ⟨pid2, kg, encodeMessage w⟩ :: packetize kg (pid2 + 1) ms :=
      fun _ _ _ => rfl
    rw [hstep2, List.foldl_cons]
    have hacc : replayCheck (rs.lastPacketID kg) pid = true := by
      cases hl : rs.lastPacketID kg with
      | none => rfl
      | some l =>
        have := hlast kg l hl
        simp only [replayCheck, decide_eq_true_eq]
        exact this
    have hck : (cs.getD k []).length < 65528 := by
      apply hbody
      rw [List.getD_eq_get cs [] hklt]
      exact List.get_mem cs k hklt
    have hrp := receivePacket_accept rs pid kg
      ⟨messageTypeFragment, encodeFragBody mid k cs.length (cs.getD k [])⟩
      hacc (by norm_num [messageTypeFragment])
      (by show (encodeFragBody mid k cs.length (cs.getD k [])).length < 65536
          rw [length_encodeFragBody]
          omega)
    rw [hrp]
    have hrm := recvMsg_fragment rs.recv mid k cs.length (cs.getD k [])
      hmid (by omega) hn
    have hins := insertFragment_eq rs.recv mid k cs.length (cs.getD k [])
      ⟨cs.length, gotPre cs k⟩ htab
    rcases Nat.eq_zero_or_pos m1 with hm0 | hm1
    · subst hm0
      have hk1 : k + 1 = cs.length := by omega
      have hcomp : fragComplete ⟨cs.length,
          (k, cs.getD k []) :: gotPre cs k⟩ = true := by
        have h2 : fragComplete ⟨cs.length, (k, cs.getD k []) :: gotPre cs k⟩
            = fragComplete ⟨cs.length, gotPre cs (k + 1)⟩ := rfl
        rw [h2, hk1]
        exact fragComplete_gotPre_full cs
      have hrest : cs.drop (k + 1) = [] :=
        List.drop_eq_nil_of_le (by omega)
      rw [hrest]
      have hstep3 : fragmentMsgsAux mid cs.length (k + 1)
          ([] : List (List Nat)) = [] := rfl
      have hstep4 : packetize kg (pid + 1) ([] : List WireMsg) = [] := rfl
      rw [hstep3, hstep4, List.foldl_nil]
      rw [hrm, hins, if_pos hcomp]
      have hasm : fragAssemble ⟨cs.length, (k, cs.getD k []) :: gotPre cs k⟩
          = fragAssemble ⟨cs.length, gotPre cs cs.length⟩ := by
        have h3 : fragAssemble ⟨cs.length, (k, cs.getD k []) :: gotPre cs k⟩
            = fragAssemble ⟨cs.length, gotPre cs (k + 1)⟩ := rfl
        rw [h3, hk1]
      rw [hasm]
      exact ⟨rfl, rfl⟩
    · have hk2 : k + 1 < cs.length := by omega
      have hcomp : fragComplete ⟨cs.length,
          (k, cs.getD k []) :: gotPre cs k⟩ = false := by
        have h2 : fragComplete ⟨cs.length, (k, cs.getD k []) :: gotPre cs k⟩
            = fragComplete ⟨cs.length, gotPre cs (k + 1)⟩ := rfl
        rw [h2]
        exact fragComplete_gotPre_partial cs cs.length (k + 1) hk2
      have hrecv1 : recvMsg rs.recv ⟨messageTypeFragment,
          encodeFragBody mid k cs.length (cs.getD k [])⟩
          = { delivered := rs.recv.delivered,
              fragTable := [(mid, ⟨cs.length, gotPre cs (k + 1)⟩)] } := by
        rw [hrm, hins, if_neg (by rw [hcomp]; exact Bool.false_ne_true)]
        rw [htab2]
        rfl
      rw [hrecv1]
      have hlast1 : ∀ kg2 l,
          (if kg2 = kg then some pid else rs.lastPacketID kg2) = some l →
          l < pid + 1 := by
        intro kg2 l hl
        by_cases hkg : kg2 = kg
        · rw [if_pos hkg] at hl
          cases hl
          omega
        · rw [if_neg hkg] at hl
          exact Nat.lt_succ_of_lt (hlast kg2 l hl)
      have hres := ih hm1 (k + 1) (by omega)
        ⟨fun kg2 => if kg2 = kg then some pid else rs.lastPacketID kg2,
         rs.unexpectedPacketIDCount,
         ⟨rs.recv.delivered, [(mid, ⟨cs.length, gotPre cs (k + 1)⟩)]⟩⟩
        (pid + 1)
        hlast1
        (by simp [List.lookup])
        (by simp [List.eraseP])
      exact hres

/-- C2: fragmentation round trip: with `EnableFragmentation` on, a payload
larger than `PayloadSizeLimit` (but within the cap of the 2-byte wire
fields) is split into fragments, and the peer that receives all fragment
packets in order delivers exactly the original payload, once, with no
unexpected-packet events. -/
theorem fragmentation_roundtrip (cfg : SessConfig) (mid pid kg : Nat)
    (p : List Nat)
    (hfrag : cfg.enableFragmentation = true)
    (hbig : cfg.payloadSizeLimit < p.length)
    (hfs : fragHeaderSize < cfg.payloadSizeLimit)
    (hlim : cfg.payloadSizeLimit < 65536)
    (hcap : p.length < 65536)
    (hmid : mid < 4294967296) :
    ∃ msgs, sessionWrite cfg mid p = .ok msgs ∧
      ((packetize kg pid msgs).foldl receivePacket
        initialReceiver).recv.delivered = [p] ∧
      ((packetize kg pid msgs).foldl receivePacket
        initialReceiver).unexpectedPacketIDCount = 0 := by
  have hw : sessionWrite cfg mid p = .ok (fragmentMsgs mid
      (chunkBytes (cfg.payloadSizeLimit - fragHeaderSize) p)) := by
    unfold sessionWrite
    rw [if_pos hbig, if_pos hfrag]
  have hfs1 : 1 ≤ cfg.payloadSizeLimit - fragHeaderSize := by
    unfold fragHeaderSize at hfs ⊢
    omega
  have hp0 : p ≠ [] := by
    intro h
    rw [h] at hbig
    simp at hbig
  have hcs1 : 1 ≤ (chunkBytes (cfg.payloadSizeLimit - fragHeaderSize) p).length :=
    chunkBytes_pos _ p hp0
  have hcsn : (chunkBytes (cfg.payloadSizeLimit - fragHeaderSize) p).length
      < 65536 := by
    have := chunkBytes_length_le (cfg.payloadSizeLimit - fragHeaderSize) p
    omega
  have hbody : ∀ c ∈ chunkBytes (cfg.payloadSizeLimit - fragHeaderSize) p,
      c.length < 65528 := by
    intro c hc
    have h1 := chunkBytesAux_mem_length
      (cfg.payloadSizeLimit - fragHeaderSize) p.length p c hc
    unfold fragHeaderSize at h1
    omega
  have hlast0 : ∀ kg2 l,
      initialReceiver.lastPacketID kg2 = some l → l < pid := by
    intro kg2 l hl
    cases hl
  have hmain := frag_fold_aux
    (chunkBytes (cfg.payloadSizeLimit - fragHeaderSize) p) mid kg hmid hcsn
    hbody (chunkBytes (cfg.payloadSizeLimit - fragHeaderSize) p).length hcs1
    0 (by omega) initialReceiver pid hlast0 rfl rfl
  refine ⟨_, hw, ?_, ?_⟩
  · have h1 := hmain.1
    rw [fragAssemble_gotPre, chunkBytes_join _ p hfs1] at h1
    exact h1
  · exact hmain.2

/-- C2 witness: limit 10 (chunk size 2), a 12-byte payload split into 6
fragments, reassembled identically. -/
theorem fragmentation_roundtrip_witness :
    ∃ msgs, sessionWrite ⟨10, true⟩ 3
        [0, 1, 2, 3, 4, 5, 6, 7, 8, 9, 10, 11] = .ok msgs ∧
      ((packetize 0 5 msgs).foldl receivePacket
        initialReceiver).recv.delivered
        = [[0, 1, 2, 3, 4, 5, 6, 7, 8, 9, 10, 11]] ∧
      ((packetize 0 5 msgs).foldl receivePacket
        initialReceiver).unexpectedPacketIDCount = 0 :=
  fragmentation_roundtrip ⟨10, true⟩ 3 5 0
    [0, 1, 2, 3, 4, 5, 6, 7, 8, 9, 10, 11] rfl (by norm_num)
    (by norm_num [fragHeaderSize]) (by norm_num) (by norm_num) (by norm_num)

/-- Ghost-instrumented token of the send-scheduler model: the embedded
`SendInfo` state plus the number of times the token has been signaled
since its acquisition. -/
structure TokSt where
  st : SendInfo
  sigCount : Nat
deriving DecidableEq, Repr

/-- Modelled from the spec: the per-session send-scheduler state: the
tokens ever acquired (by id), the ids sitting in the single open merge
slot, and the next fresh id (spec section 4.4; pooled ids are not reused
in the model, reuse freshness is covered by the pool embedding). -/
structure SchedState where
  toks : Nat → Option TokSt
  slot : List Nat
  nextTok : Nat

/-- State of a token just handed out by the pool, reference count 1; it
equals the result of `acquireSendInfo` on a pool-allocated token (see
`freshTokSt_acquire`). -/
def freshTokSt (tid : Nat) : SendInfo :=
  { Err := none, N := 0, sendID := tid, cClosed := false, ctxDone := false,
    refCount := 1, isBusy := true }

theorem freshTokSt_acquire (tid : Nat) :
    acquireSendInfo false tid (newSendInfo tid) = .ok (freshTokSt tid) := rfl

/-- Modelled from the spec: `WriteMessageAsync` acquires a fresh token and
appends it to the open merge slot (spec section 4.4, Merging). -/
def schedWriteAsync (σ : SchedState) : SchedState :=
  { toks := fun tid => if tid = σ.nextTok
      then some ⟨freshTokSt σ.nextTok, 0⟩ else σ.toks tid,
    slot := σ.nextTok :: σ.slot,
    nextTok := σ.nextTok + 1 }

/-- Modelled from the spec: signaling one token at flush: the flusher
writes the transport result into `Err` and `N` and closes the Done
channel; the ghost counter records the signal (spec section 4.4, Flush). -/
def signalTok (e : Option SessErr) (n : Int) (t : TokSt) : TokSt :=
  ⟨{ t.st with Err := e, N := n, cClosed := true }, t.sigCount + 1⟩

/-- Modelled from the spec: Flush closes the open merge slot and signals
every token in it, all with the same error and byte count (spec section
4.4, Flush and Ordering guarantee). -/
def schedFlush (σ : SchedState) (e : Option SessErr) (n : Int) :
    SchedState :=
  { toks := fun tid => if tid ∈ σ.slot
      then (σ.toks tid).map (signalTok e n) else σ.toks tid,
    slot := [],
    nextTok := σ.nextTok }

/-- Modelled from the spec: the caller releases a token; the new token
state is the result of the embedded `(*SendInfo).Release` (spec section 5,
Pools). -/
def schedRelease (σ : SchedState) (tid : Nat) (s1 : SendInfo) : SchedState :=
  { toks := fun tid2 => if tid2 = tid
      then (σ.toks tid2).map (fun t => ⟨s1, t.sigCount⟩) else σ.toks tid2,
    slot := σ.slot,
    nextTok := σ.nextTok }

/-- Modelled from the spec: the session-visible interleavings of the send
scheduler: an asynchronous write, a slot flush, and a release of a token
through `(*SendInfo).Release` (which must not panic). -/
inductive SchedStep : SchedState → SchedState → Prop
  | writeAsync (σ : SchedState) : SchedStep σ (schedWriteAsync σ)
  | flush (σ : SchedState) (e : Option SessErr) (n : Int) :
      SchedStep σ (schedFlush σ e n)
  | release (σ : SchedState) (tid : Nat) (t : TokSt) (s1 : SendInfo)
      (pooled : Bool) : σ.toks tid = some t →
      t.st.Release = .ok (s1, pooled) → SchedStep σ (schedRelease σ tid s1)

/-- Scheduler state of a freshly started session. -/
def schedInit : SchedState := ⟨fun _ => none, [], 0⟩

/-- The states the send scheduler can reach from a fresh session. -/
def SchedReach (σ : SchedState) : Prop :=
  Relation.ReflTransGen SchedStep schedInit σ

theorem schedWriteAsync_toks (σ : SchedState) (tid : Nat) :
    (schedWriteAsync σ).toks tid = if tid = σ.nextTok
      then some ⟨freshTokSt σ.nextTok, 0⟩ else σ.toks tid := rfl

theorem schedWriteAsync_slot (σ : SchedState) :
    (schedWriteAsync σ).slot = σ.nextTok :: σ.slot := rfl

theorem schedWriteAsync_nextTok (σ : SchedState) :
    (schedWriteAsync σ).nextTok = σ.nextTok + 1 := rfl

theorem schedFlush_toks (σ : SchedState) (e : Option SessErr) (n : Int)
    (tid : Nat) : (schedFlush σ e n).toks tid = if tid ∈ σ.slot
      then (σ.toks tid).map (signalTok e n) else σ.toks tid := rfl

theorem schedFlush_slot (σ : SchedState) (e : Option SessErr) (n : Int) :
    (schedFlush σ e n).slot = [] := rfl

theorem schedFlush_nextTok (σ : SchedState) (e : Option SessErr) (n : Int) :
    (schedFlush σ e n).nextTok = σ.nextTok := rfl

theorem schedRelease_toks (σ : SchedState) (tid : Nat) (s1 : SendInfo)
    (tid2 : Nat) : (schedRelease σ tid s1).toks tid2 = if tid2 = tid
      then (σ.toks tid2).map (fun t => ⟨s1, t.sigCount⟩)
      else σ.toks tid2 := rfl

theorem schedRelease_slot (σ : SchedState) (tid : Nat) (s1 : SendInfo) :
    (schedRelease σ tid s1).slot = σ.slot := rfl

theorem schedRelease_nextTok (σ : SchedState) (tid : Nat) (s1 : SendInfo) :
    (schedRelease σ tid s1).nextTok = σ.nextTok := rfl

theorem sendInfoPoolPut_ok (s s2 : SendInfo)
    (h : sendInfoPoolPut s = .ok s2) :
    s2 = SendInfo.reset { s with isBusy := false } ∧ s.isBusy = true := by
  unfold sendInfoPoolPut at h
  by_cases hb : s.isBusy = true
  · rw [if_neg (by simp [hb])] at h
    injection h with h2
    exact ⟨h2.symm, hb⟩
  · rw [if_pos (by simp [Bool.not_eq_true] at hb ⊢; exact hb)] at h
    exact Except.noConfusion h

theorem release_ok_fields (s s1 : SendInfo) (pooled : Bool)
    (h : s.Release = .ok (s1, pooled)) :
    (s.cClosed = true ∨ s.ctxDone = true) ∧ s1.ctxDone = s.ctxDone ∧
    (s1.isBusy = true → s1.cClosed = s.cClosed ∧ s1.Err = s.Err ∧
      s1.N = s.N ∧ s1.isBusy = s.isBusy) := by
  unfold SendInfo.Release at h
  by_cases h1 : (!s.cClosed && !s.ctxDone) = true
  · rw [if_pos h1] at h
    exact Except.noConfusion h
  · have hor : s.cClosed = true ∨ s.ctxDone = true := by
      cases hc : s.cClosed with
      | true => exact Or.inl rfl
      | false =>
        cases hd : s.ctxDone with
        | true => exact Or.inr rfl
        | false => exact absurd (by rw [hc, hd]; rfl) h1
    rw [if_neg h1] at h
    by_cases h2 : (0 : Int) < s.refCount - 1
    · rw [if_pos h2] at h
      injection h with h3
      cases h3
      exact ⟨hor, rfl, fun _ => ⟨rfl, rfl, rfl, rfl⟩⟩
    · rw [if_neg h2] at h
      by_cases h3 : s.refCount - 1 < 0
      · rw [if_pos h3] at h
        exact Except.noConfusion h
      · rw [if_neg h3] at h
        cases hput : sendInfoPoolPut { s with refCount := s.refCount - 1 } with
        | error p =>
          rw [hput] at h
          exact Except.noConfusion h
        | ok s2 =>
          rw [hput] at h
          injection h with h4
          cases h4
          obtain ⟨h5, _⟩ := sendInfoPoolPut_ok _ _ hput
          subst h5
          refine ⟨hor, rfl, fun hbusy => ?_⟩
          exact absurd hbusy (by simp [SendInfo.reset])

/-- Invariant of the send-scheduler model: ids at or above the fresh
counter are unused; no token has a cancelled context (no cancellation step
in the model); a token in the open slot is busy, unsignaled, with an open
channel; a busy token out of the slot has been signaled exactly once and
its channel is closed. -/
def SchedInv (σ : SchedState) : Prop :=
  (∀ tid, σ.nextTok ≤ tid → σ.toks tid = none) ∧
  (∀ tid t, σ.toks tid = some t → t.st.ctxDone = false) ∧
  (∀ tid t, σ.toks tid = some t →
    (tid ∈ σ.slot →
      t.st.isBusy = true ∧ t.st.cClosed = false ∧ t.sigCount = 0) ∧
    (tid ∉ σ.slot → t.st.isBusy = true →
      t.st.cClosed = true ∧ t.sigCount = 1))

theorem schedInit_inv : SchedInv schedInit :=
  ⟨fun _ _ => rfl, fun _ _ h => Option.noConfusion h,
   fun _ _ h => Option.noConfusion h⟩

theorem schedStep_inv (σ σ2 : SchedState) (hσ : SchedInv σ)
    (h : SchedStep σ σ2) : SchedInv σ2 := by
  obtain ⟨hbound, hctx, hmain⟩ := hσ
  cases h with
  | writeAsync =>
    refine ⟨?_, ?_, ?_⟩
    · intro tid htid
      rw [schedWriteAsync_nextTok] at htid
      rw [schedWriteAsync_toks, if_neg (by omega)]
      exact hbound tid (by omega)
    · intro tid t ht
      rw [schedWriteAsync_toks] at ht
      by_cases he : tid = σ.nextTok
      · rw [if_pos he] at ht
        cases ht
        rfl
      · rw [if_neg he] at ht
        exact hctx tid t ht
    · intro tid t ht
      rw [schedWriteAsync_toks] at ht
      rw [schedWriteAsync_slot]
      by_cases he : tid = σ.nextTok
      · rw [if_pos he] at ht
        cases ht
        constructor
        · intro _
          exact ⟨rfl, rfl, rfl⟩
        · intro hnot
          exact absurd (by rw [he]; exact List.mem_cons_self _ _) hnot
      · rw [if_neg he] at ht
        have hold := hmain tid t ht
        constructor
        · intro hin
          rcases List.mem_cons.mp hin with h1 | h1
          · exact absurd h1 he
          · exact hold.1 h1
        · intro hnot hbusy
          exact hold.2 (fun hin => hnot (List.mem_cons_of_mem _ hin)) hbusy
  | flush e n =>
    refine ⟨?_, ?_, ?_⟩
    · intro tid htid
      rw [schedFlush_nextTok] at htid
      rw [schedFlush_toks, hbound tid htid]
      simp
    · intro tid t ht
      rw [schedFlush_toks] at ht
      by_cases hin : tid ∈ σ.slot
      · rw [if_pos hin] at ht
        rcases Option.map_eq_some'.mp ht with ⟨t0, ht0, hsig⟩
        have := hctx tid t0 ht0
        rw [← hsig]
        exact this
      · rw [if_neg hin] at ht
        exact hctx tid t ht
    · intro tid t ht
      rw [schedFlush_toks] at ht
      rw [schedFlush_slot]
      by_cases hin : tid ∈ σ.slot
      · rw [if_pos hin] at ht
        rcases Option.map_eq_some'.mp ht with ⟨t0, ht0, hsig⟩
        have hold := (hmain tid t0 ht0).1 hin
        constructor
        · intro hmem
          exact absurd hmem (List.not_mem_nil tid)
        · intro _ _
          rw [← hsig]
          refine ⟨rfl, ?_⟩
          show t0.sigCount + 1 = 1
          rw [hold.2.2]
      · rw [if_neg hin] at ht
        have hold := hmain tid t ht
        constructor
        · intro hmem
          exact absurd hmem (List.not_mem_nil tid)
        · intro _ hbusy
          exact hold.2 hin hbusy
  | release tid0 t0 s1 pooled htid0 hrel =>
    obtain ⟨hor, hctx1, hfields⟩ := release_ok_fields t0.st s1 pooled hrel
    have hctx0 : t0.st.ctxDone = false := hctx tid0 t0 htid0
    have hcl0 : t0.st.cClosed = true := by
      rcases hor with h | h
      · exact h
      · rw [hctx0] at h
        exact absurd h (by simp)
    have hnot0 : tid0 ∉ σ.slot := by
      intro hin
      have := ((hmain tid0 t0 htid0).1 hin).2.1
      rw [hcl0] at this
      exact Bool.noConfusion this
    refine ⟨?_, ?_, ?_⟩
    · intro tid htid
      rw [schedRelease_nextTok] at htid
      rw [schedRelease_toks]
      by_cases he : tid = tid0
      · rw [if_pos he, hbound tid htid]
        simp
      · rw [if_neg he]
        exact hbound tid htid
    · intro tid t ht
      rw [schedRelease_toks] at ht
      by_cases he : tid = tid0
      · rw [if_pos he] at ht
        subst he
        rw [htid0] at ht
        rcases Option.map_eq_some'.mp ht with ⟨t1, ht1, hmap⟩
        cases ht1
        rw [← hmap]
        show s1.ctxDone = false
        rw [hctx1, hctx0]
      · rw [if_neg he] at ht
        exact hctx tid t ht
    · intro tid t ht
      rw [schedRelease_toks] at ht
      rw [schedRelease_slot]
      by_cases he : tid = tid0
      · rw [if_pos he] at ht
        subst he
        rw [htid0] at ht
        rcases Option.map_eq_some'.mp ht with ⟨t1, ht1, hmap⟩
        cases ht1
        constructor
        · intro hin
          exact absurd hin hnot0
        · intro _ hbusy
          rw [← hmap] at hbusy
          have hf := hfields hbusy
          have hbusy0 : t0.st.isBusy = true := by
            rw [← hf.2.2.2]
            exact hbusy
          have hold := (hmain tid t0 htid0).2 hnot0 hbusy0
          rw [← hmap]
          refine ⟨?_, ?_⟩
          · show s1.cClosed = true
            rw [hf.1, hcl0]
          · show t0.sigCount = 1
            exact hold.2
      · rw [if_neg he] at ht
        have hold := hmain tid t ht
        exact hold

theorem schedReach_inv (σ : SchedState) (h : SchedReach σ) : SchedInv σ := by
  induction h with
  | refl => exact schedInit_inv
  | tail _ hs ih => exact schedStep_inv _ _ ih hs

theorem schedStep_preserves_signaled (σ σ2 : SchedState) (hσ : SchedInv σ)
    (h : SchedStep σ σ2) (tid : Nat) (t t2 : TokSt)
    (ht : σ.toks tid = some t) (hcl : t.st.cClosed = true)
    (ht2 : σ2.toks tid = some t2) (hbusy : t2.st.isBusy = true) :
    t2.st.Err = t.st.Err ∧ t2.st.N = t.st.N := by
  obtain ⟨hbound, hctx, hmain⟩ := hσ
  cases h with
  | writeAsync =>
    rw [schedWriteAsync_toks] at ht2
    by_cases he : tid = σ.nextTok
    · have : σ.toks tid = none := hbound tid (by omega)
      rw [this] at ht
      exact Option.noConfusion ht
    · rw [if_neg he] at ht2
      rw [ht] at ht2
      cases ht2
      exact ⟨rfl, rfl⟩
  | flush e n =>
    rw [schedFlush_toks] at ht2
    by_cases hin : tid ∈ σ.slot
    · have := ((hmain tid t ht).1 hin).2.1
      rw [hcl] at this
      exact Bool.noConfusion this
    · rw [if_neg hin] at ht2
      rw [ht] at ht2
      cases ht2
      exact ⟨rfl, rfl⟩
  | release tid0 t0 s1 pooled htid0 hrel =>
    rw [schedRelease_toks] at ht2
    by_cases he : tid = tid0
    · subst he
      rw [if_pos rfl, htid0] at ht2
      rcases Option.map_eq_some'.mp ht2 with ⟨t1, ht1, hmap⟩
      cases ht1
      rw [htid0] at ht
      cases ht
      rw [← hmap] at hbusy
      have hf := (release_ok_fields t.st s1 pooled hrel).2.2 hbusy
      rw [← hmap]
      exact ⟨hf.2.1, hf.2.2.1⟩
    · rw [if_neg he] at ht2
      rw [ht] at ht2
      cases ht2
      exact ⟨rfl, rfl⟩

/-- C3: in the send-scheduler model, every send token acquired through
`WriteMessageAsync` is signaled exactly once: a busy token has a ghost
signal count of at most one, a busy token that has left the merge slot has
been signaled exactly once (its Done channel closed), and any further
scheduler step that leaves the token live keeps `Err` and `N` unchanged
(the fields are immutable between the signal and `Release`). -/
theorem sendInfo_signaled_once_immutable (σ : SchedState)
    (hσ : SchedReach σ) :
    (∀ tid t, σ.toks tid = some t → t.st.isBusy = true →
      t.sigCount ≤ 1 ∧
      (tid ∉ σ.slot → t.sigCount = 1 ∧ t.st.cClosed = true)) ∧
    (∀ σ2, SchedStep σ σ2 → ∀ tid t t2, σ.toks tid = some t →
      t.st.cClosed = true → σ2.toks tid = some t2 → t2.st.isBusy = true →
      t2.st.Err = t.st.Err ∧ t2.st.N = t.st.N) := by
  have hinv := schedReach_inv σ hσ
  constructor
  · intro tid t ht hbusy
    obtain ⟨hbound, hctx, hmain⟩ := hinv
    by_cases hslot : tid ∈ σ.slot
    · have h1 := (hmain tid t ht).1 hslot
      refine ⟨by omega, fun hnot => absurd hslot hnot⟩
    · have h2 := (hmain tid t ht).2 hslot hbusy
      exact ⟨by omega, fun _ => ⟨h2.2, h2.1⟩⟩
  · intro σ2 hstep tid t t2 ht hcl ht2 hbusy
    exact schedStep_preserves_signaled σ σ2 hinv hstep tid t t2 ht hcl
      ht2 hbusy

/-- Scheduler run used by the C3 witness: one asynchronous write followed
by one flush reporting 5 bytes written and no error. -/
theorem schedReach_witness_run :
    SchedReach (schedFlush (schedWriteAsync schedInit) none 5) :=
  Relation.ReflTransGen.tail
    (Relation.ReflTransGen.tail Relation.ReflTransGen.refl
      (SchedStep.writeAsync schedInit))
    (SchedStep.flush (schedWriteAsync schedInit) none 5)

/-- Token state of token 0 after the witness run: signaled once with
`Err = none`, `N = 5`. -/
def tokW : TokSt :=
  ⟨{ Err := none, N := 5, sendID := 0, cClosed := true, ctxDone := false,
     refCount := 1, isBusy := true }, 1⟩

/-- C3 witness: after one write and one flush, token 0 is out of the slot,
signaled exactly once, with its Done channel closed. -/
theorem sendInfo_signaled_once_immutable_witness :
    tokW.sigCount = 1 ∧ tokW.st.cClosed = true :=
  ((sendInfo_signaled_once_immutable
      (schedFlush (schedWriteAsync schedInit) none 5)
      schedReach_witness_run).1 0 tokW (by decide) rfl).2 (by decide)
